import Mathlib

/-!
Shallow embedding of `src/internal/waker.rs` (the `Waker` wait queue of the
channel library) and verification of its specification.

Modelling decisions:

* `Context` (the external `internal::context::Context` collaborator) is reduced
  to what this file's code observes of it: a stable identity (`id`, standing
  for the `Arc<Context>` pointer identity, used to track which context an
  `unpark`/`try_select`/`try_abort` call is addressed to) and the owning
  thread's identifier (`threadId`, standing for `context.thread.id()`).
* The outcomes of the atomic collaborator calls `Context::try_select` and
  `Context::try_abort` are external to this module (they depend on races with
  other queues); they are passed in as oracle functions `sel, ab : Case → Bool`.
* The `VecDeque<Case>` is a `List Case` (front = head); `VecDeque::remove i`
  is removal at an index, `push_back` is append at the tail, `drain(..)` takes
  the whole list in order. The backing capacity is the `cap` field; only
  `maybe_shrink` changes it (the only capacity-conscious code in the source).
* Each operation returns, besides its result and the next `Waker` state, a
  trace of `Event`s recording, in program order, the lock acquisitions and
  releases, stores to the atomic `len` counter, reallocation by
  `maybe_shrink`, and every `try_select` / `try_abort` / `unpark` collaborator
  call it performs.  Temporal claims (lock released before `unpark`, one
  `try_abort` per drained entry, ...) are stated over this trace.
-/

/-- External collaborator `internal::context::Context`, as observed by
`waker.rs`: an identity for the shared `Arc<Context>` handle and the thread id
returned by `context.thread.id()`. -/
structure Context where
  id : Nat
  threadId : Nat
  deriving DecidableEq, Repr

/-- A selection case (struct `Case` of `waker.rs`): a context handle, the case
ID (opaque, equality-compared only, hence a `Nat`), and the packet word. -/
structure Case where
  ctx : Context
  case_id : Nat
  packet : Nat
  deriving DecidableEq, Repr

/-- One observable step of a `Waker` operation: lock/unlock of the `cases`
mutex, a `SeqCst` store to the `len` counter, a reallocation performed by
`maybe_shrink`, and the collaborator calls `try_select` (context id, case id,
packet, returned Bool), `try_abort` (context id, returned Bool) and `unpark`
(context id). -/
inductive Event where
  | lock : Event
  | unlock : Event
  | storeLen : Nat → Event
  | reallocate : Nat → Event
  | trySelect : Nat → Nat → Nat → Bool → Event
  | tryAbort : Nat → Bool → Event
  | unpark : Nat → Event
  deriving DecidableEq, Repr

/-- The wait queue (struct `Waker`): the mutex-protected `VecDeque<Case>`
(`cases`, with its backing capacity `cap`) and the atomic counter `len`. -/
structure Waker where
  cases : List Case
  len : Nat
  cap : Nat
  deriving DecidableEq, Repr

namespace Waker

/-- `Waker::new`: empty deque, counter 0. -/
def new : Waker := ⟨[], 0, 0⟩

/-- `Waker::maybe_shrink` (lines 143-149): if the deque's capacity exceeds 32
and its length is below a quarter of the capacity, reallocate into a fresh
deque requested at half the capacity, moving all entries over in order
(`v.extend(cases.drain(..))`). Returns the entries, the new requested
capacity, and the reallocation event if one happened. -/
def maybe_shrink (cs : List Case) (cap : Nat) : List Case × Nat × List Event :=
  if cap > 32 ∧ cs.length < cap / 4 then
    (cs, cap / 2, [Event.reallocate (cap / 2)])
  else
    (cs, cap, [])

/-- `Waker::register` (lines 48-56): lock, push a case built from the current
thread's context, the given case id and packet 0 at the back, store the new
length into `len`, unlock. -/
def register (w : Waker) (ctx : Context) (case_id : Nat) : Waker × List Event :=
  let cs := w.cases ++ [⟨ctx, case_id, 0⟩]
  (⟨cs, cs.length, w.cap⟩, [Event.lock, Event.storeLen cs.length, Event.unlock])

/-- `Waker::register_with_packet` (lines 58-66): same as `register` but with
an explicit packet word. -/
def register_with_packet (w : Waker) (ctx : Context) (case_id packet : Nat) :
    Waker × List Event :=
  let cs := w.cases ++ [⟨ctx, case_id, packet⟩]
  (⟨cs, cs.length, w.cap⟩, [Event.lock, Event.storeLen cs.length, Event.unlock])

/-- The `find` of `Waker::unregister` line 73 followed by the `remove` of line
74: locate the first case whose `case_id` equals the argument and remove it,
returning it together with the remaining entries. -/
def removeFirst (case_id : Nat) : List Case → Option (Case × List Case)
  | [] => none
  | c :: rest =>
    if c.case_id = case_id then some (c, rest)
    else (removeFirst case_id rest).map (fun p => (p.1, c :: p.2))

/-- `Waker::unregister` (lines 69-84): fast-path check `len > 0`; otherwise
lock, remove the first entry with the given case id if any, store the new
length, run `maybe_shrink`, unlock, and return the removed case. -/
def unregister (w : Waker) (case_id : Nat) : Option Case × Waker × List Event :=
  if w.len > 0 then
    match removeFirst case_id w.cases with
    | some (c, rest) =>
      let ms := maybe_shrink rest w.cap
      (some c, ⟨ms.1, rest.length, ms.2.1⟩,
        Event.lock :: Event.storeLen rest.length :: ms.2.2 ++ [Event.unlock])
    | none => (none, w, [Event.lock, Event.unlock])
  else
    (none, w, [])

/-- The scan loop of `Waker::wake_one` (lines 92-104): walk the deque in FIFO
order; for each case owned by a thread other than `tid`, call
`context.try_select(case_id, packet)` (outcome given by the oracle `sel`); on
the first success return the claimed case and the deque with exactly that
entry removed. Also returns the `try_select` events issued, in order. -/
def wakeLoop (tid : Nat) (sel : Case → Bool) :
    List Case → Option (Case × List Case) × List Event
  | [] => (none, [])
  | c :: rest =>
    if c.ctx.threadId ≠ tid then
      if sel c then
        (some (c, rest), [Event.trySelect c.ctx.id c.case_id c.packet true])
      else
        let r := wakeLoop tid sel rest
        (r.1.map (fun p => (p.1, c :: p.2)),
          Event.trySelect c.ctx.id c.case_id c.packet false :: r.2)
    else
      let r := wakeLoop tid sel rest
      (r.1.map (fun p => (p.1, c :: p.2)), r.2)

/-- `Waker::wake_one` (lines 87-108): fast-path check `len > 0`; otherwise
lock and scan (`wakeLoop`); on a successful claim remove the entry, store the
new length, run `maybe_shrink`, drop the lock (line 99), then `unpark` the
claimed context (line 100) and return the case; otherwise return `None`. -/
def wake_one (w : Waker) (tid : Nat) (sel : Case → Bool) :
    Option Case × Waker × List Event :=
  if w.len > 0 then
    match wakeLoop tid sel w.cases with
    | (some (c, rest), evs) =>
      let ms := maybe_shrink rest w.cap
      (some c, ⟨ms.1, rest.length, ms.2.1⟩,
        Event.lock :: evs ++ Event.storeLen rest.length :: ms.2.2 ++
          [Event.unlock, Event.unpark c.ctx.id])
    | (none, evs) => (none, w, Event.lock :: evs ++ [Event.unlock])
  else
    (none, w, [])

/-- The drain loop of `Waker::abort_all` (lines 116-120): for every entry in
FIFO order call `context.try_abort()` (outcome given by the oracle `ab`) and,
if it succeeded, `context.unpark()`. Returns the events issued, in order. -/
def abortLoop (ab : Case → Bool) : List Case → List Event
  | [] => []
  | c :: rest =>
    Event.tryAbort c.ctx.id (ab c) ::
      (if ab c then [Event.unpark c.ctx.id] else []) ++ abortLoop ab rest

/-- `Waker::abort_all` (lines 111-124): fast-path check `len > 0`; otherwise
lock, store 0 into `len`, drain every entry (calling `try_abort` and, on
success, `unpark` — note the mutex guard is still alive here), run
`maybe_shrink` on the now-empty deque, and only then unlock (the guard is
dropped at the end of the block). -/
def abort_all (w : Waker) (ab : Case → Bool) : Waker × List Event :=
  if w.len > 0 then
    let ms := maybe_shrink [] w.cap
    (⟨ms.1, 0, ms.2.1⟩,
      Event.lock :: Event.storeLen 0 :: abortLoop ab w.cases ++ ms.2.2 ++
        [Event.unlock])
  else
    (w, [])

/-- `Waker::can_notify` (lines 128-140): fast-path check `len > 0`; otherwise
lock and scan for any case whose owning thread differs from the caller's.
Read-only: the state is returned unchanged. -/
def can_notify (w : Waker) (tid : Nat) : Bool × Waker × List Event :=
  if w.len > 0 then
    (w.cases.any (fun c => c.ctx.threadId != tid), w, [Event.lock, Event.unlock])
  else
    (false, w, [])

end Waker

/-- Trace predicate: scanning the event list with a `locked` flag (set by
`Event.lock`, cleared by `Event.unlock`), no `Event.unpark` occurs while the
flag is set. -/
def noUnparkWhileLocked : List Event → Bool → Bool
  | [], _ => true
  | Event.lock :: rest, _ => noUnparkWhileLocked rest true
  | Event.unlock :: rest, _ => noUnparkWhileLocked rest false
  | Event.unpark _ :: rest, locked => !locked && noUnparkWhileLocked rest locked
  | Event.storeLen _ :: rest, locked => noUnparkWhileLocked rest locked
  | Event.reallocate _ :: rest, locked => noUnparkWhileLocked rest locked
  | Event.trySelect _ _ _ _ :: rest, locked => noUnparkWhileLocked rest locked
  | Event.tryAbort _ _ :: rest, locked => noUnparkWhileLocked rest locked

/-- Recognizer for lock/unlock events. -/
def isLockEvent : Event → Bool
  | Event.lock => true
  | Event.unlock => true
  | _ => false

/-- Recognizer for `try_select` events. -/
def isTrySelect : Event → Bool
  | Event.trySelect _ _ _ _ => true
  | _ => false

/-- Recognizer for `try_abort` events. -/
def isTryAbort : Event → Bool
  | Event.tryAbort _ _ => true
  | _ => false

/-- Recognizer for `unpark` events. -/
def isUnparkEvent : Event → Bool
  | Event.unpark _ => true
  | _ => false

/-! Concrete fixtures used by the witness theorems and scenario claims. -/

/-- Oracle under which every `try_select` / `try_abort` call succeeds. -/
def selAll : Case → Bool := fun _ => true

/-- Oracle under which every `try_abort` call succeeds. -/
def abAll : Case → Bool := fun _ => true

/-- A context owned by thread 1. -/
def ctxA : Context := ⟨10, 1⟩

/-- A context owned by thread 2. -/
def ctxB : Context := ⟨20, 2⟩

/-- First scenario registration: case id 1, packet 100, thread 1. -/
def caseA : Case := ⟨ctxA, 1, 100⟩

/-- Second scenario registration: case id 2, packet 200, thread 2. -/
def caseB : Case := ⟨ctxB, 2, 200⟩

/-- The §8 scenario queue: packet 100 registered under case id 1 by thread 1,
then packet 200 under case id 2 by thread 2. -/
def wScen : Waker :=
  (Waker.register_with_packet
    (Waker.register_with_packet Waker.new ctxA 1 100).1 ctxB 2 200).1

/-- A queue whose only entry is owned by thread 5. -/
def wOwn : Waker := ⟨[⟨⟨40, 5⟩, 1, 0⟩], 1, 0⟩

/-- A queue whose only entry is owned by thread 7. -/
def wOwn2 : Waker := ⟨[⟨⟨41, 7⟩, 3, 9⟩], 1, 0⟩

/-- A queue holding two distinct entries that share case id 7. -/
def wDup : Waker := ⟨[⟨ctxA, 7, 1⟩, ⟨ctxB, 7, 2⟩], 2, 0⟩

/-- A one-entry queue used to exhibit `abort_all` unparking under the lock. -/
def wCex : Waker := ⟨[⟨⟨10, 1⟩, 1, 0⟩], 1, 0⟩

/-- A second one-entry queue for the amended-claim witness. -/
def wCex2 : Waker := ⟨[⟨⟨11, 4⟩, 2, 0⟩], 1, 0⟩

/-! Helper lemmas. -/

/-- `maybe_shrink` never adds, drops or reorders entries. -/
theorem maybe_shrink_fst (cs : List Case) (cap : Nat) :
    (Waker.maybe_shrink cs cap).1 = cs := by
  unfold Waker.maybe_shrink
  split <;> rfl

/-- `maybe_shrink` emits only reallocation events. -/
theorem maybe_shrink_events (cs : List Case) (cap : Nat) :
    ∀ e ∈ (Waker.maybe_shrink cs cap).2.2,
      isLockEvent e = false ∧ isUnparkEvent e = false ∧
      isTrySelect e = false ∧ isTryAbort e = false := by
  unfold Waker.maybe_shrink
  split
  · intro e he
    simp only [List.mem_singleton] at he
    subst he
    exact ⟨rfl, rfl, rfl, rfl⟩
  · intro e he
    simp at he

/-- Characterization of a successful `wakeLoop` scan: the claimed case is the
first eligible one (owned by another thread, with `try_select` succeeding),
the earlier entries are all ineligible, and exactly the claimed entry is
removed. -/
theorem wakeLoop_some (tid : Nat) (sel : Case → Bool) :
    ∀ (cs rest : List Case) (c : Case),
      (Waker.wakeLoop tid sel cs).1 = some (c, rest) →
      ∃ pre suf, cs = pre ++ c :: suf ∧ rest = pre ++ suf ∧
        c.ctx.threadId ≠ tid ∧ sel c = true ∧
        ∀ x ∈ pre, x.ctx.threadId = tid ∨ sel x = false := by
  intro cs
  induction cs with
  | nil =>
    intro rest c h
    simp [Waker.wakeLoop] at h
  | cons a l ih =>
    intro rest c h
    simp only [Waker.wakeLoop] at h
    by_cases ht : a.ctx.threadId ≠ tid
    · rw [if_pos ht] at h
      by_cases hs : sel a
      · rw [if_pos hs] at h
        simp only [Option.some.injEq, Prod.mk.injEq] at h
        obtain ⟨h1, h2⟩ := h
        subst h1
        subst h2
        exact ⟨[], l, by simp, by simp, ht, hs, by simp⟩
      · rw [if_neg hs] at h
        simp only at h
        cases hr : (Waker.wakeLoop tid sel l).1 with
        | none => rw [hr] at h; simp at h
        | some p =>
          rw [hr] at h
          simp only [Option.map_some', Option.some.injEq, Prod.mk.injEq] at h
          obtain ⟨pre, suf, hl, hp2, hc, hsc, hpre⟩ := ih p.2 p.1 (by rw [hr])
          obtain ⟨hc1, hc2'⟩ := h
          have hc2 : rest = a :: p.2 := hc2'.symm
          subst hc1
          refine ⟨a :: pre, suf, by simp [hl], by simp [hc2, hp2], hc, hsc, ?_⟩
          intro x hx
          rcases List.mem_cons.mp hx with hx | hx
          · subst hx
            right
            exact eq_false_of_ne_true (by simpa using hs)
          · exact hpre x hx
    · rw [if_neg ht] at h
      simp only at h
      cases hr : (Waker.wakeLoop tid sel l).1 with
      | none => rw [hr] at h; simp at h
      | some p =>
        rw [hr] at h
        simp only [Option.map_some', Option.some.injEq, Prod.mk.injEq] at h
        obtain ⟨pre, suf, hl, hp2, hc, hsc, hpre⟩ := ih p.2 p.1 (by rw [hr])
        obtain ⟨hc1, hc2'⟩ := h
        have hc2 : rest = a :: p.2 := hc2'.symm
        subst hc1
        refine ⟨a :: pre, suf, by simp [hl], by simp [hc2, hp2], hc, hsc, ?_⟩
        intro x hx
        rcases List.mem_cons.mp hx with hx | hx
        · subst hx
          left
          simpa using ht
        · exact hpre x hx

/-- If every entry is either owned by the calling thread or loses its
`try_select`, the scan claims nothing. -/
theorem wakeLoop_none (tid : Nat) (sel : Case → Bool) :
    ∀ cs : List Case, (∀ c ∈ cs, c.ctx.threadId = tid ∨ sel c = false) →
      (Waker.wakeLoop tid sel cs).1 = none := by
  intro cs
  induction cs with
  | nil =>
    intro _
    simp [Waker.wakeLoop]
  | cons a l ih =>
    intro h
    have hl := ih (fun c hc => h c (List.mem_cons_of_mem a hc))
    simp only [Waker.wakeLoop]
    rcases h a (List.mem_cons_self a l) with ha | ha
    · rw [if_neg (by simp [ha])]
      simp [hl]
    · by_cases ht : a.ctx.threadId ≠ tid
      · rw [if_pos ht, if_neg (by simp [ha])]
        simp [hl]
      · rw [if_neg ht]
        simp [hl]

/-- Every event the scan loop emits is a `try_select` call. -/
theorem wakeLoop_events (tid : Nat) (sel : Case → Bool) :
    ∀ cs : List Case, ∀ e ∈ (Waker.wakeLoop tid sel cs).2, isTrySelect e = true := by
  intro cs
  induction cs with
  | nil =>
    intro e he
    simp [Waker.wakeLoop] at he
  | cons a l ih =>
    intro e he
    simp only [Waker.wakeLoop] at he
    by_cases ht : a.ctx.threadId ≠ tid
    · rw [if_pos ht] at he
      by_cases hs : sel a
      · rw [if_pos hs] at he
        simp only [List.mem_singleton] at he
        subst he
        rfl
      · rw [if_neg hs] at he
        simp only [List.mem_cons] at he
        rcases he with he | he
        · subst he
          rfl
        · exact ih e he
    · rw [if_neg ht] at he
      exact ih e he

/-- `removeFirst` finds the first matching entry and removes exactly it. -/
theorem removeFirst_eq_some (case_id : Nat) :
    ∀ (pre suf : List Case) (c : Case), c.case_id = case_id →
      (∀ x ∈ pre, x.case_id ≠ case_id) →
      Waker.removeFirst case_id (pre ++ c :: suf) = some (c, pre ++ suf) := by
  intro pre
  induction pre with
  | nil =>
    intro suf c hc _
    simp [Waker.removeFirst, hc]
  | cons a l ih =>
    intro suf c hc h
    have ha : a.case_id ≠ case_id := h a (List.mem_cons_self a l)
    have hrec := ih suf c hc (fun x hx => h x (List.mem_cons_of_mem a hx))
    rw [List.cons_append]
    show (if a.case_id = case_id then some (a, l ++ c :: suf)
      else (Waker.removeFirst case_id (l ++ c :: suf)).map
        (fun p => (p.1, a :: p.2))) = _
    rw [if_neg ha, hrec]
    rfl

/-- When no entry matches, `removeFirst` finds nothing. -/
theorem removeFirst_eq_none (case_id : Nat) :
    ∀ cs : List Case, (∀ x ∈ cs, x.case_id ≠ case_id) →
      Waker.removeFirst case_id cs = none := by
  intro cs
  induction cs with
  | nil =>
    intro _
    rfl
  | cons a l ih =>
    intro h
    simp [Waker.removeFirst, h a (List.mem_cons_self a l),
      ih (fun x hx => h x (List.mem_cons_of_mem a hx))]

/-- Unfolding of the abort drain loop on a nonempty deque, reassociated into
cons-append normal form. -/
theorem abortLoop_cons (ab : Case → Bool) (c : Case) (l : List Case) :
    Waker.abortLoop ab (c :: l) =
      Event.tryAbort c.ctx.id (ab c) ::
        ((if ab c then [Event.unpark c.ctx.id] else []) ++ Waker.abortLoop ab l) := by
  rfl

/-- The abort drain loop emits no lock or unlock event. -/
theorem abortLoop_no_lock (ab : Case → Bool) :
    ∀ cs : List Case, ∀ e ∈ Waker.abortLoop ab cs, isLockEvent e = false := by
  intro cs
  induction cs with
  | nil =>
    intro e he
    simp [Waker.abortLoop] at he
  | cons c l ih =>
    intro e he
    rw [abortLoop_cons] at he
    rcases List.mem_cons.mp he with he | he
    · subst he
      rfl
    · rcases List.mem_append.mp he with he | he
      · by_cases hc : ab c = true
        · rw [if_pos hc] at he
          rcases List.mem_singleton.mp he with rfl
          rfl
        · rw [if_neg hc] at he
          simp at he
      · exact ih e he

/-- An `unpark` event appears in the drain loop's trace exactly for the
entries whose `try_abort` succeeded. -/
theorem abortLoop_unpark_mem (ab : Case → Bool) :
    ∀ (cs : List Case) (x : Nat),
      Event.unpark x ∈ Waker.abortLoop ab cs ↔
        ∃ c ∈ cs, c.ctx.id = x ∧ ab c = true := by
  intro cs
  induction cs with
  | nil =>
    intro x
    simp [Waker.abortLoop]
  | cons c l ih =>
    intro x
    rw [abortLoop_cons]
    by_cases hc : ab c = true
    · rw [if_pos hc]
      constructor
      · intro h
        rcases List.mem_cons.mp h with h | h
        · exact absurd h (by simp)
        · rcases List.mem_append.mp h with h | h
          · have hx := List.mem_singleton.mp h
            injection hx with hx
            exact ⟨c, List.mem_cons_self c l, hx.symm, hc⟩
          · obtain ⟨d, hd, hdx, hda⟩ := (ih x).mp h
            exact ⟨d, List.mem_cons_of_mem c hd, hdx, hda⟩
      · rintro ⟨d, hd, hdx, hda⟩
        rcases List.mem_cons.mp hd with hd | hd
        · subst hd
          refine List.mem_cons.mpr (Or.inr (List.mem_append.mpr (Or.inl ?_)))
          rw [hdx]
          exact List.mem_singleton.mpr rfl
        · exact List.mem_cons.mpr
            (Or.inr (List.mem_append.mpr (Or.inr ((ih x).mpr ⟨d, hd, hdx, hda⟩))))
    · rw [if_neg hc, List.nil_append]
      constructor
      · intro h
        rcases List.mem_cons.mp h with h | h
        · exact absurd h (by simp)
        · obtain ⟨d, hd, hdx, hda⟩ := (ih x).mp h
          exact ⟨d, List.mem_cons_of_mem c hd, hdx, hda⟩
      · rintro ⟨d, hd, hdx, hda⟩
        rcases List.mem_cons.mp hd with hd | hd
        · subst hd
          exact absurd hda hc
        · exact List.mem_cons.mpr (Or.inr ((ih x).mpr ⟨d, hd, hdx, hda⟩))

/-- The `try_abort` events of the drain loop, kept in order, are exactly one
per drained entry, carrying that entry's context and outcome. -/
theorem abortLoop_filter (ab : Case → Bool) :
    ∀ cs : List Case,
      (Waker.abortLoop ab cs).filter isTryAbort
        = cs.map (fun c => Event.tryAbort c.ctx.id (ab c)) := by
  intro cs
  induction cs with
  | nil =>
    rfl
  | cons c l ih =>
    by_cases hc : ab c = true <;>
      simp [Waker.abortLoop, hc, List.filter_append, ih, isTryAbort]

/-- Events that are neither lock/unlock nor `unpark` do not affect the
`noUnparkWhileLocked` scan. -/
theorem nuwl_append_neutral :
    ∀ (l rest : List Event) (b : Bool),
      (∀ e ∈ l, isLockEvent e = false ∧ isUnparkEvent e = false) →
      noUnparkWhileLocked (l ++ rest) b = noUnparkWhileLocked rest b := by
  intro l
  induction l with
  | nil =>
    intro rest b _
    rfl
  | cons e l ih =>
    intro rest b h
    have he := h e (List.mem_cons_self e l)
    have hl := fun x hx => h x (List.mem_cons_of_mem e hx)
    cases e with
    | lock => simp [isLockEvent] at he
    | unlock => simp [isLockEvent] at he
    | unpark i => simp [isUnparkEvent] at he
    | storeLen n => exact ih rest b hl
    | reallocate n => exact ih rest b hl
    | trySelect i j k r => exact ih rest b hl
    | tryAbort i r => exact ih rest b hl

/-- If a lock-free stretch of the trace contains an `unpark` while the lock
flag is set, the scan reports a violation. -/
theorem nuwl_locked_unpark :
    ∀ (l rest : List Event) (x : Nat),
      Event.unpark x ∈ l → (∀ e ∈ l, isLockEvent e = false) →
      noUnparkWhileLocked (l ++ rest) true = false := by
  intro l
  induction l with
  | nil =>
    intro rest x hx _
    simp at hx
  | cons e l ih =>
    intro rest x hx h
    have hl := fun a ha => h a (List.mem_cons_of_mem e ha)
    cases e with
    | lock => simpa [isLockEvent] using h _ (List.mem_cons_self _ _)
    | unlock => simpa [isLockEvent] using h _ (List.mem_cons_self _ _)
    | unpark i => simp [noUnparkWhileLocked]
    | storeLen n =>
      have hx' : Event.unpark x ∈ l := by
        rcases List.mem_cons.mp hx with hx | hx
        · exact absurd hx (by simp)
        · exact hx
      exact ih rest x hx' hl
    | reallocate n =>
      have hx' : Event.unpark x ∈ l := by
        rcases List.mem_cons.mp hx with hx | hx
        · exact absurd hx (by simp)
        · exact hx
      exact ih rest x hx' hl
    | trySelect i j k r =>
      have hx' : Event.unpark x ∈ l := by
        rcases List.mem_cons.mp hx with hx | hx
        · exact absurd hx (by simp)
        · exact hx
      exact ih rest x hx' hl
    | tryAbort i r =>
      have hx' : Event.unpark x ∈ l := by
        rcases List.mem_cons.mp hx with hx | hx
        · exact absurd hx (by simp)
        · exact hx
      exact ih rest x hx' hl

/-- `wake_one` on the empty-counter fast path: nothing happens. -/
theorem wake_one_eq_empty (w : Waker) (tid : Nat) (sel : Case → Bool)
    (hl : ¬w.len > 0) : Waker.wake_one w tid sel = (none, w, []) := by
  unfold Waker.wake_one
  rw [if_neg hl]

/-- `wake_one` when the scan claims nothing: `None`, state untouched. -/
theorem wake_one_eq_none_loop (w : Waker) (tid : Nat) (sel : Case → Bool)
    (evs : List Event) (hl : w.len > 0)
    (hw : Waker.wakeLoop tid sel w.cases = (none, evs)) :
    Waker.wake_one w tid sel = (none, w, Event.lock :: evs ++ [Event.unlock]) := by
  unfold Waker.wake_one
  rw [if_pos hl, hw]

/-- `wake_one` when the scan claims a case: remove it, store the new length,
shrink, unlock, unpark. -/
theorem wake_one_eq_some (w : Waker) (tid : Nat) (sel : Case → Bool)
    (c : Case) (rest : List Case) (evs : List Event) (hl : w.len > 0)
    (hw : Waker.wakeLoop tid sel w.cases = (some (c, rest), evs)) :
    Waker.wake_one w tid sel =
      (some c,
        ⟨(Waker.maybe_shrink rest w.cap).1, rest.length,
          (Waker.maybe_shrink rest w.cap).2.1⟩,
        Event.lock :: evs ++ Event.storeLen rest.length ::
          (Waker.maybe_shrink rest w.cap).2.2 ++
          [Event.unlock, Event.unpark c.ctx.id]) := by
  unfold Waker.wake_one
  rw [if_pos hl, hw]

/-- `unregister` on the empty-counter fast path: nothing happens. -/
theorem unregister_eq_empty (w : Waker) (case_id : Nat) (hl : ¬w.len > 0) :
    Waker.unregister w case_id = (none, w, []) := by
  unfold Waker.unregister
  rw [if_neg hl]

/-- `unregister` when no entry matches: `None`, state untouched. -/
theorem unregister_eq_none (w : Waker) (case_id : Nat) (hl : w.len > 0)
    (hr : Waker.removeFirst case_id w.cases = none) :
    Waker.unregister w case_id = (none, w, [Event.lock, Event.unlock]) := by
  unfold Waker.unregister
  rw [if_pos hl, hr]

/-- `unregister` when an entry matches: remove it, store the new length,
shrink, unlock. -/
theorem unregister_eq_some (w : Waker) (case_id : Nat) (c : Case)
    (rest : List Case) (hl : w.len > 0)
    (hr : Waker.removeFirst case_id w.cases = some (c, rest)) :
    Waker.unregister w case_id =
      (some c,
        ⟨(Waker.maybe_shrink rest w.cap).1, rest.length,
          (Waker.maybe_shrink rest w.cap).2.1⟩,
        Event.lock :: Event.storeLen rest.length ::
          (Waker.maybe_shrink rest w.cap).2.2 ++ [Event.unlock]) := by
  unfold Waker.unregister
  rw [if_pos hl, hr]

/-- `abort_all` on the empty-counter fast path: nothing happens. -/
theorem abort_all_eq_empty (w : Waker) (ab : Case → Bool) (hl : ¬w.len > 0) :
    Waker.abort_all w ab = (w, []) := by
  unfold Waker.abort_all
  rw [if_neg hl]

/-- `abort_all` past the fast path: zero the counter, drain every entry,
shrink, unlock only at the end. -/
theorem abort_all_eq_pos (w : Waker) (ab : Case → Bool) (hl : w.len > 0) :
    Waker.abort_all w ab =
      (⟨(Waker.maybe_shrink [] w.cap).1, 0, (Waker.maybe_shrink [] w.cap).2.1⟩,
        Event.lock :: Event.storeLen 0 :: Waker.abortLoop ab w.cases ++
          (Waker.maybe_shrink [] w.cap).2.2 ++ [Event.unlock]) := by
  unfold Waker.abort_all
  rw [if_pos hl]

/-- Characterization of a successful `wake_one`: the returned case is the
first eligible entry in FIFO order, and exactly it is removed. -/
theorem wake_one_some_char (w : Waker) (tid : Nat) (sel : Case → Bool)
    (c : Case) (h : (Waker.wake_one w tid sel).1 = some c) :
    ∃ pre suf, w.cases = pre ++ c :: suf ∧
      (Waker.wake_one w tid sel).2.1.cases = pre ++ suf ∧
      (Waker.wake_one w tid sel).2.1.len = (pre ++ suf).length ∧
      c.ctx.threadId ≠ tid ∧ sel c = true ∧
      ∀ x ∈ pre, x.ctx.threadId = tid ∨ sel x = false := by
  by_cases hl : w.len > 0
  · rcases hw : Waker.wakeLoop tid sel w.cases with ⟨r, evs⟩
    cases r with
    | none =>
      rw [wake_one_eq_none_loop w tid sel evs hl hw] at h
      simp at h
    | some p =>
      rcases p with ⟨c', rest⟩
      have heq := wake_one_eq_some w tid sel c' rest evs hl hw
      rw [heq] at h
      have hcc : c' = c := by simpa using h
      subst hcc
      obtain ⟨pre, suf, h1, h2, h3, h4, h5⟩ :=
        wakeLoop_some tid sel w.cases rest c' (by rw [hw])
      subst h2
      refine ⟨pre, suf, h1, ?_, ?_, h3, h4, h5⟩
      · rw [heq]
        exact maybe_shrink_fst _ _
      · rw [heq]
  · rw [wake_one_eq_empty w tid sel hl] at h
    simp at h

/-- When every entry is ineligible (owned by the caller or losing its
`try_select`), `wake_one` returns `None` and leaves the state untouched. -/
theorem wake_one_none_char (w : Waker) (tid : Nat) (sel : Case → Bool)
    (h : ∀ c ∈ w.cases, c.ctx.threadId = tid ∨ sel c = false) :
    (Waker.wake_one w tid sel).1 = none ∧ (Waker.wake_one w tid sel).2.1 = w := by
  by_cases hl : w.len > 0
  · rcases hw : Waker.wakeLoop tid sel w.cases with ⟨r, evs⟩
    have hr : r = none := by
      have hn := wakeLoop_none tid sel w.cases h
      rw [hw] at hn
      simpa using hn
    subst hr
    rw [wake_one_eq_none_loop w tid sel evs hl hw]
    exact ⟨rfl, rfl⟩
  · rw [wake_one_eq_empty w tid sel hl]
    exact ⟨rfl, rfl⟩

/-- C1: for every queue state and calling thread, `wake_one` never claims,
removes, or returns a case whose context's thread identity equals the calling
thread's; if the only entries present are owned by the caller, it returns
`None` and the queue is unchanged. -/
theorem wake_one_no_self (w : Waker) (tid : Nat) (sel : Case → Bool) :
    (∀ c : Case, (Waker.wake_one w tid sel).1 = some c → c.ctx.threadId ≠ tid) ∧
    ((∀ c ∈ w.cases, c.ctx.threadId = tid) →
      (Waker.wake_one w tid sel).1 = none ∧ (Waker.wake_one w tid sel).2.1 = w) := by
  constructor
  · intro c h
    obtain ⟨_, _, _, _, _, hne, _, _⟩ := wake_one_some_char w tid sel c h
    exact hne
  · intro h
    exact wake_one_none_char w tid sel (fun c hc => Or.inl (h c hc))

/-- Witness for C1: on `wScen`, thread 5 claims `caseA` (owned by thread 1, so
not its own); on `wOwn`, whose only entry thread 5 itself owns, `wake_one`
from thread 5 returns `None` and changes nothing. -/
theorem wake_one_no_self_witness :
    caseA.ctx.threadId ≠ 5 ∧
    ((Waker.wake_one wOwn 5 selAll).1 = none ∧
      (Waker.wake_one wOwn 5 selAll).2.1 = wOwn) :=
  ⟨(wake_one_no_self wScen 5 selAll).1 caseA (by decide),
    (wake_one_no_self wOwn 5 selAll).2 (by decide)⟩

/-- C2: `wake_one` scans in FIFO order, returns the first entry owned by
another thread whose `try_select` succeeds (fields unchanged from
registration), removes exactly that entry, and returns `None` when every
attempt fails; concretely, after registrations with packets 100 and 200 by
threads 1 and 2, thread 3 receives the two cases in FIFO order with their
packets intact and then `None`. -/
theorem wake_one_fifo (w : Waker) (tid : Nat) (sel : Case → Bool) :
    (∀ c : Case, (Waker.wake_one w tid sel).1 = some c →
      ∃ pre suf, w.cases = pre ++ c :: suf ∧
        (Waker.wake_one w tid sel).2.1.cases = pre ++ suf ∧
        c.ctx.threadId ≠ tid ∧ sel c = true ∧
        ∀ x ∈ pre, x.ctx.threadId = tid ∨ sel x = false) ∧
    ((∀ c ∈ w.cases, c.ctx.threadId = tid ∨ sel c = false) →
      (Waker.wake_one w tid sel).1 = none) ∧
    (Waker.wake_one wScen 3 selAll).1 = some caseA ∧
    (Waker.wake_one (Waker.wake_one wScen 3 selAll).2.1 3 selAll).1 = some caseB ∧
    (Waker.wake_one
      (Waker.wake_one (Waker.wake_one wScen 3 selAll).2.1 3 selAll).2.1
      3 selAll).1 = none := by
  refine ⟨?_, ?_, by decide, by decide, by decide⟩
  · intro c h
    obtain ⟨pre, suf, h1, h2, _, hne, hsel, hpre⟩ := wake_one_some_char w tid sel c h
    exact ⟨pre, suf, h1, h2, hne, hsel, hpre⟩
  · intro h
    exact (wake_one_none_char w tid sel h).1

/-- Witness for C2: on `wOwn2` (single entry owned by thread 7) a wake from
thread 7 has no eligible entry and returns `None`. -/
theorem wake_one_fifo_witness : (Waker.wake_one wOwn2 7 selAll).1 = none :=
  (wake_one_fifo wOwn2 7 selAll).2.1 (by decide)

/-- C7: registration always succeeds, appends the constructed case at the
tail, sets the counter to the new length, and `register` coincides with
`register_with_packet` at packet 0. -/
theorem register_spec (w : Waker) (ctx : Context) (case_id packet : Nat) :
    (Waker.register_with_packet w ctx case_id packet).1.cases
        = w.cases ++ [⟨ctx, case_id, packet⟩] ∧
    (Waker.register_with_packet w ctx case_id packet).1.len
        = (Waker.register_with_packet w ctx case_id packet).1.cases.length ∧
    (Waker.register w ctx case_id).1.cases = w.cases ++ [⟨ctx, case_id, 0⟩] ∧
    (Waker.register w ctx case_id).1.len
        = (Waker.register w ctx case_id).1.cases.length ∧
    Waker.register w ctx case_id = Waker.register_with_packet w ctx case_id 0 :=
  ⟨rfl, rfl, rfl, rfl, rfl⟩

/-- C8: `maybe_shrink` preserves the entries and their order, reallocates
exactly when capacity exceeds 32 and the length is below a quarter of it, and
then requests half the old capacity. -/
theorem maybe_shrink_spec (cs : List Case) (cap : Nat) :
    (Waker.maybe_shrink cs cap).1 = cs ∧
    ((cap > 32 ∧ cs.length < cap / 4) →
      (Waker.maybe_shrink cs cap).2.1 = cap / 2) ∧
    (¬(cap > 32 ∧ cs.length < cap / 4) →
      (Waker.maybe_shrink cs cap).2.1 = cap) ∧
    ((Waker.maybe_shrink cs cap).2.1 ≠ cap ↔ (cap > 32 ∧ cs.length < cap / 4)) := by
  unfold Waker.maybe_shrink
  by_cases h : cap > 32 ∧ cs.length < cap / 4
  · rw [if_pos h]
    refine ⟨rfl, fun _ => rfl, fun hn => absurd h hn, ?_⟩
    constructor
    · intro _
      exact h
    · intro _
      show cap / 2 ≠ cap
      have h32 := h.1
      omega
  · rw [if_neg h]
    refine ⟨rfl, fun hh => absurd hh h, fun _ => rfl, ?_⟩
    constructor
    · intro hx
      exact absurd rfl hx
    · intro hx
      exact absurd hx h

/-- Witness for C8: capacity 100 with an empty deque shrinks to a request of
50; capacity 10 (below the threshold) is left alone. -/
theorem maybe_shrink_spec_witness :
    (Waker.maybe_shrink ([] : List Case) 100).2.1 = 50 ∧
    (Waker.maybe_shrink ([caseA] : List Case) 10).2.1 = 10 :=
  ⟨(maybe_shrink_spec [] 100).2.1 (by decide),
    (maybe_shrink_spec [caseA] 10).2.2.1 (by decide)⟩

/-- C5: `unregister` removes the first entry (in insertion order) matching the
case id and returns it with its fields intact, storing the new length; at most
one entry is removed even among duplicates (the remainder `pre ++ suf` keeps
any later matches); with no match it returns `None` and leaves the queue
unchanged. -/
theorem unregister_spec (w : Waker) (case_id : Nat)
    (hinv : w.len = w.cases.length) :
    (∀ (pre suf : List Case) (c : Case),
      w.cases = pre ++ c :: suf → c.case_id = case_id →
      (∀ x ∈ pre, x.case_id ≠ case_id) →
      (Waker.unregister w case_id).1 = some c ∧
      (Waker.unregister w case_id).2.1.cases = pre ++ suf ∧
      (Waker.unregister w case_id).2.1.len = (pre ++ suf).length) ∧
    ((∀ x ∈ w.cases, x.case_id ≠ case_id) →
      (Waker.unregister w case_id).1 = none ∧
      (Waker.unregister w case_id).2.1 = w) := by
  constructor
  · intro pre suf c hsplit hc hpre
    have hl : w.len > 0 := by
      rw [hinv, hsplit, List.length_append, List.length_cons]
      omega
    have hr : Waker.removeFirst case_id w.cases = some (c, pre ++ suf) := by
      rw [hsplit]
      exact removeFirst_eq_some case_id pre suf c hc hpre
    rw [unregister_eq_some w case_id c (pre ++ suf) hl hr]
    exact ⟨rfl, maybe_shrink_fst _ _, rfl⟩
  · intro hnone
    by_cases hl : w.len > 0
    · rw [unregister_eq_none w case_id hl (removeFirst_eq_none case_id w.cases hnone)]
      exact ⟨rfl, rfl⟩
    · rw [unregister_eq_empty w case_id hl]
      exact ⟨rfl, rfl⟩

/-- Witness for C5: on `wDup`, whose two entries both carry case id 7,
`unregister 7` removes exactly the first one and keeps the duplicate. -/
theorem unregister_spec_witness :
    (Waker.unregister wDup 7).1 = some ⟨ctxA, 7, 1⟩ ∧
    (Waker.unregister wDup 7).2.1.cases = [⟨ctxB, 7, 2⟩] ∧
    (Waker.unregister wDup 7).2.1.len = 1 := by
  have h := (unregister_spec wDup 7 (by decide)).1 [] [⟨ctxB, 7, 2⟩] ⟨ctxA, 7, 1⟩
    (by decide) (by decide) (by decide)
  exact ⟨h.1, h.2.1, h.2.2⟩

/-- C9: `can_notify` returns true exactly when some queued entry is owned by a
thread other than the caller, and performs no mutation. -/
theorem can_notify_spec (w : Waker) (tid : Nat)
    (hinv : w.len = w.cases.length) :
    ((Waker.can_notify w tid).1 = true ↔ ∃ c ∈ w.cases, c.ctx.threadId ≠ tid) ∧
    (Waker.can_notify w tid).2.1 = w := by
  unfold Waker.can_notify
  by_cases hl : w.len > 0
  · rw [if_pos hl]
    refine ⟨?_, rfl⟩
    simp only [List.any_eq_true, bne_iff_ne]
  · rw [if_neg hl]
    refine ⟨?_, rfl⟩
    have hnil : w.cases = [] := by
      have h0 : w.cases.length = 0 := by omega
      exact List.eq_nil_of_length_eq_zero h0
    rw [hnil]
    simp

/-- Witness for C9: from thread 3, `wScen` (entries of threads 1 and 2) is
notifiable; the read leaves `wOwn` untouched. -/
theorem can_notify_spec_witness :
    (Waker.can_notify wScen 3).1 = true ∧
    (Waker.can_notify wOwn 9).2.1 = wOwn :=
  ⟨(can_notify_spec wScen 3 (by decide)).1.mpr ⟨caseA, by decide, by decide⟩,
    (can_notify_spec wOwn 9 (by decide)).2⟩

/-- C10: whenever `unregister` or `wake_one` returns `None`, the state is
exactly as it was at entry — no counter store and no reallocation appears in
the trace either. -/
theorem absence_preserves_state (w : Waker) (case_id tid : Nat)
    (sel : Case → Bool) :
    ((Waker.unregister w case_id).1 = none →
      (Waker.unregister w case_id).2.1 = w ∧
      (∀ n, Event.storeLen n ∉ (Waker.unregister w case_id).2.2) ∧
      (∀ n, Event.reallocate n ∉ (Waker.unregister w case_id).2.2)) ∧
    ((Waker.wake_one w tid sel).1 = none →
      (Waker.wake_one w tid sel).2.1 = w ∧
      (∀ n, Event.storeLen n ∉ (Waker.wake_one w tid sel).2.2) ∧
      (∀ n, Event.reallocate n ∉ (Waker.wake_one w tid sel).2.2)) := by
  constructor
  · intro h
    by_cases hl : w.len > 0
    · cases hr : Waker.removeFirst case_id w.cases with
      | none =>
        rw [unregister_eq_none w case_id hl hr]
        refine ⟨rfl, ?_, ?_⟩ <;> intro n <;> simp
      | some p =>
        rw [unregister_eq_some w case_id p.1 p.2 hl (by rw [hr])] at h
        simp at h
    · rw [unregister_eq_empty w case_id hl]
      refine ⟨rfl, ?_, ?_⟩ <;> intro n <;> simp
  · intro h
    by_cases hl : w.len > 0
    · rcases hw : Waker.wakeLoop tid sel w.cases with ⟨r, evs⟩
      have hevs : ∀ e ∈ evs, isTrySelect e = true := by
        intro e he
        apply wakeLoop_events tid sel w.cases
        rw [hw]
        exact he
      cases r with
      | none =>
        rw [wake_one_eq_none_loop w tid sel evs hl hw]
        refine ⟨rfl, ?_, ?_⟩ <;> intro n hmem
        · rcases List.mem_cons.mp hmem with hm | hm
          · exact absurd hm (by simp)
          · rcases List.mem_append.mp hm with hm | hm
            · exact Bool.noConfusion (hevs _ hm)
            · exact absurd (List.mem_singleton.mp hm) (by simp)
        · rcases List.mem_cons.mp hmem with hm | hm
          · exact absurd hm (by simp)
          · rcases List.mem_append.mp hm with hm | hm
            · exact Bool.noConfusion (hevs _ hm)
            · exact absurd (List.mem_singleton.mp hm) (by simp)
      | some p =>
        rcases p with ⟨c, rest⟩
        rw [wake_one_eq_some w tid sel c rest evs hl hw] at h
        simp at h
    · rw [wake_one_eq_empty w tid sel hl]
      refine ⟨rfl, ?_, ?_⟩ <;> intro n <;> simp

/-- Witness for C10: unregistering the absent case id 9 from `wScen` leaves
the queue exactly as it was. -/
theorem absence_preserves_state_witness :
    (Waker.unregister wScen 9).2.1 = wScen :=
  ((absence_preserves_state wScen 9 3 selAll).1 (by decide)).1

/-- C6: starting from a state where the counter mirrors the entry count,
every operation leaves the counter equal to the entry-sequence length, and a
state mutation only ever happens together with a lock acquisition in the
trace. -/
theorem len_mirrors_length (w : Waker) (ctx : Context)
    (case_id packet tid : Nat) (sel ab : Case → Bool)
    (hinv : w.len = w.cases.length) :
    (Waker.register w ctx case_id).1.len
        = (Waker.register w ctx case_id).1.cases.length ∧
    (Waker.register_with_packet w ctx case_id packet).1.len
        = (Waker.register_with_packet w ctx case_id packet).1.cases.length ∧
    (Waker.unregister w case_id).2.1.len
        = (Waker.unregister w case_id).2.1.cases.length ∧
    (Waker.wake_one w tid sel).2.1.len
        = (Waker.wake_one w tid sel).2.1.cases.length ∧
    (Waker.abort_all w ab).1.len = (Waker.abort_all w ab).1.cases.length ∧
    ((Waker.unregister w case_id).2.1 ≠ w →
      Event.lock ∈ (Waker.unregister w case_id).2.2) ∧
    ((Waker.wake_one w tid sel).2.1 ≠ w →
      Event.lock ∈ (Waker.wake_one w tid sel).2.2) ∧
    ((Waker.abort_all w ab).1 ≠ w → Event.lock ∈ (Waker.abort_all w ab).2) := by
  refine ⟨rfl, rfl, ?_, ?_, ?_, ?_, ?_, ?_⟩
  · by_cases hl : w.len > 0
    · cases hr : Waker.removeFirst case_id w.cases with
      | none =>
        rw [unregister_eq_none w case_id hl hr]
        exact hinv
      | some p =>
        rw [unregister_eq_some w case_id p.1 p.2 hl (by rw [hr])]
        rw [show ((⟨(Waker.maybe_shrink p.2 w.cap).1, p.2.length,
          (Waker.maybe_shrink p.2 w.cap).2.1⟩ : Waker)).cases
            = (Waker.maybe_shrink p.2 w.cap).1 from rfl, maybe_shrink_fst]
    · rw [unregister_eq_empty w case_id hl]
      exact hinv
  · by_cases hl : w.len > 0
    · rcases hw : Waker.wakeLoop tid sel w.cases with ⟨r, evs⟩
      cases r with
      | none =>
        rw [wake_one_eq_none_loop w tid sel evs hl hw]
        exact hinv
      | some p =>
        rcases p with ⟨c, rest⟩
        rw [wake_one_eq_some w tid sel c rest evs hl hw]
        rw [show ((⟨(Waker.maybe_shrink rest w.cap).1, rest.length,
          (Waker.maybe_shrink rest w.cap).2.1⟩ : Waker)).cases
            = (Waker.maybe_shrink rest w.cap).1 from rfl, maybe_shrink_fst]
    · rw [wake_one_eq_empty w tid sel hl]
      exact hinv
  · by_cases hl : w.len > 0
    · rw [abort_all_eq_pos w ab hl]
      rw [show ((⟨(Waker.maybe_shrink [] w.cap).1, 0,
        (Waker.maybe_shrink [] w.cap).2.1⟩ : Waker)).cases
          = (Waker.maybe_shrink [] w.cap).1 from rfl, maybe_shrink_fst]
      rfl
    · rw [abort_all_eq_empty w ab hl]
      exact hinv
  · intro hne
    by_cases hl : w.len > 0
    · cases hr : Waker.removeFirst case_id w.cases with
      | none =>
        rw [unregister_eq_none w case_id hl hr] at hne ⊢
        exact absurd rfl hne
      | some p =>
        rw [unregister_eq_some w case_id p.1 p.2 hl (by rw [hr])]
        exact List.mem_cons_self _ _
    · rw [unregister_eq_empty w case_id hl] at hne
      exact absurd rfl hne
  · intro hne
    by_cases hl : w.len > 0
    · rcases hw : Waker.wakeLoop tid sel w.cases with ⟨r, evs⟩
      cases r with
      | none =>
        rw [wake_one_eq_none_loop w tid sel evs hl hw] at hne ⊢
        exact absurd rfl hne
      | some p =>
        rcases p with ⟨c, rest⟩
        rw [wake_one_eq_some w tid sel c rest evs hl hw]
        exact List.mem_cons_self _ _
    · rw [wake_one_eq_empty w tid sel hl] at hne
      exact absurd rfl hne
  · intro hne
    by_cases hl : w.len > 0
    · rw [abort_all_eq_pos w ab hl]
      exact List.mem_cons_self _ _
    · rw [abort_all_eq_empty w ab hl] at hne
      exact absurd rfl hne

/-- Witness for C6: concrete counter/length agreement after a registration,
and the lock event accompanying a successful unregistration. -/
theorem len_mirrors_length_witness :
    (Waker.register Waker.new ctxA 1).1.len
        = (Waker.register Waker.new ctxA 1).1.cases.length ∧
    Event.lock ∈ (Waker.unregister wDup 7).2.2 :=
  ⟨(len_mirrors_length Waker.new ctxA 1 0 5 selAll abAll (by decide)).1,
    (len_mirrors_length wDup ctxA 7 0 5 selAll abAll (by decide)).2.2.2.2.2.1
      (by decide)⟩

/-- C4: after `abort_all` the entry sequence is empty and the counter is
zero; the drained trace carries exactly one `try_abort` per formerly queued
entry (in order, with that entry's outcome), and an `unpark` appears for a
context exactly when some entry of that context had a successful
`try_abort`. -/
theorem abort_all_spec (w : Waker) (ab : Case → Bool)
    (hinv : w.len = w.cases.length) :
    (Waker.abort_all w ab).1.cases = [] ∧
    (Waker.abort_all w ab).1.len = 0 ∧
    ((Waker.abort_all w ab).2.filter isTryAbort
        = w.cases.map (fun c => Event.tryAbort c.ctx.id (ab c))) ∧
    (∀ x : Nat, Event.unpark x ∈ (Waker.abort_all w ab).2 ↔
      ∃ c ∈ w.cases, c.ctx.id = x ∧ ab c = true) := by
  by_cases hl : w.len > 0
  · rw [abort_all_eq_pos w ab hl]
    have hms : ((Waker.maybe_shrink [] w.cap).2.2).filter isTryAbort = [] := by
      rw [List.filter_eq_nil_iff]
      intro a ha
      simp [(maybe_shrink_events [] w.cap a ha).2.2.2]
    refine ⟨maybe_shrink_fst _ _, rfl, ?_, ?_⟩
    · simp only [List.filter_cons, List.filter_append, hms, abortLoop_filter,
        List.append_nil]
      rw [show isTryAbort Event.lock = false from rfl,
        show isTryAbort (Event.storeLen 0) = false from rfl,
        show isTryAbort Event.unlock = false from rfl]
      simp
    · intro x
      constructor
      · intro hmem
        rcases List.mem_cons.mp hmem with h | h
        · exact absurd h (by simp)
        rcases List.mem_cons.mp h with h | h
        · exact absurd h (by simp)
        rcases List.mem_append.mp h with h | h
        · rcases List.mem_append.mp h with h | h
          · exact (abortLoop_unpark_mem ab w.cases x).mp h
          · have hup := (maybe_shrink_events [] w.cap _ h).2.1
            simp [isUnparkEvent] at hup
        · exact absurd (List.mem_singleton.mp h) (by simp)
      · intro hx
        have hm := (abortLoop_unpark_mem ab w.cases x).mpr hx
        exact List.mem_cons.mpr (Or.inr (List.mem_cons.mpr (Or.inr
          (List.mem_append.mpr (Or.inl (List.mem_append.mpr (Or.inl hm)))))))
  · have hnil : w.cases = [] := by
      have h0 : w.cases.length = 0 := by omega
      exact List.eq_nil_of_length_eq_zero h0
    rw [abort_all_eq_empty w ab hl]
    refine ⟨hnil, ?_, by simp [hnil], ?_⟩
    · show w.len = 0
      omega
    · intro x
      rw [hnil]
      simp

/-- Witness for C4: aborting the two-entry scenario queue empties it and
zeroes the counter. -/
theorem abort_all_spec_witness :
    (Waker.abort_all wScen abAll).1.cases = [] ∧
    (Waker.abort_all wScen abAll).1.len = 0 := by
  have h := abort_all_spec wScen abAll (by decide)
  exact ⟨h.1, h.2.1⟩

/-- Counterexample to C3: running `abort_all` on a one-entry queue whose
`try_abort` succeeds yields a trace in which an `unpark` occurs between the
lock acquisition and the lock release — the guard in `abort_all` lives until
the end of the block, so the claim that the lock is always released before
`unpark` is false for `abort_all`. -/
theorem abort_all_unpark_under_lock_cex :
    noUnparkWhileLocked (Waker.abort_all wCex abAll).2 false = false := by
  decide

/-- C3 amended: `wake_one` always releases the lock strictly before its
`unpark`, but `abort_all` performs every `unpark` while the lock is held —
whenever its trace contains an `unpark`, the no-unpark-while-locked
discipline is violated. -/
theorem unpark_lock_discipline :
    (∀ (w : Waker) (tid : Nat) (sel : Case → Bool),
      noUnparkWhileLocked (Waker.wake_one w tid sel).2.2 false = true) ∧
    (∀ (w : Waker) (ab : Case → Bool) (x : Nat),
      Event.unpark x ∈ (Waker.abort_all w ab).2 →
      noUnparkWhileLocked (Waker.abort_all w ab).2 false = false) := by
  constructor
  · intro w tid sel
    by_cases hl : w.len > 0
    · rcases hw : Waker.wakeLoop tid sel w.cases with ⟨r, evs⟩
      have hevs : ∀ e ∈ evs, isLockEvent e = false ∧ isUnparkEvent e = false := by
        intro e he
        have ht : isTrySelect e = true := by
          apply wakeLoop_events tid sel w.cases
          rw [hw]
          exact he
        cases e with
        | trySelect i j k b => exact ⟨rfl, rfl⟩
        | lock => exact Bool.noConfusion ht
        | unlock => exact Bool.noConfusion ht
        | storeLen n => exact Bool.noConfusion ht
        | reallocate n => exact Bool.noConfusion ht
        | tryAbort i b => exact Bool.noConfusion ht
        | unpark i => exact Bool.noConfusion ht
      have hsevs : ∀ cs2 : List Case,
          ∀ e ∈ (Waker.maybe_shrink cs2 w.cap).2.2,
            isLockEvent e = false ∧ isUnparkEvent e = false := by
        intro cs2 e he
        exact ⟨(maybe_shrink_events cs2 w.cap e he).1,
          (maybe_shrink_events cs2 w.cap e he).2.1⟩
      cases r with
      | none =>
        rw [wake_one_eq_none_loop w tid sel evs hl hw]
        show noUnparkWhileLocked (evs ++ [Event.unlock]) true = true
        rw [nuwl_append_neutral evs [Event.unlock] true hevs]
        rfl
      | some p =>
        rcases p with ⟨c, rest⟩
        rw [wake_one_eq_some w tid sel c rest evs hl hw]
        show noUnparkWhileLocked
          ((evs ++ Event.storeLen rest.length ::
              (Waker.maybe_shrink rest w.cap).2.2) ++
            [Event.unlock, Event.unpark c.ctx.id]) true = true
        rw [List.append_assoc,
          nuwl_append_neutral evs _ true hevs]
        show noUnparkWhileLocked
          ((Waker.maybe_shrink rest w.cap).2.2 ++
            [Event.unlock, Event.unpark c.ctx.id]) true = true
        rw [nuwl_append_neutral _ _ true (hsevs rest)]
        rfl
    · rw [wake_one_eq_empty w tid sel hl]
      rfl
  · intro w ab x hmem
    by_cases hl : w.len > 0
    · rw [abort_all_eq_pos w ab hl] at hmem ⊢
      have hloop : Event.unpark x ∈ Waker.abortLoop ab w.cases := by
        rcases List.mem_cons.mp hmem with h | h
        · exact absurd h (by simp)
        rcases List.mem_cons.mp h with h | h
        · exact absurd h (by simp)
        rcases List.mem_append.mp h with h | h
        · rcases List.mem_append.mp h with h | h
          · exact h
          · have hup := (maybe_shrink_events [] w.cap _ h).2.1
            simp [isUnparkEvent] at hup
        · exact absurd (List.mem_singleton.mp h) (by simp)
      have hres : noUnparkWhileLocked
          ((Waker.abortLoop ab w.cases ++ (Waker.maybe_shrink [] w.cap).2.2) ++
            [Event.unlock]) true = false := by
        rw [List.append_assoc]
        exact nuwl_locked_unpark (Waker.abortLoop ab w.cases)
          ((Waker.maybe_shrink [] w.cap).2.2 ++ [Event.unlock]) x hloop
          (abortLoop_no_lock ab w.cases)
      exact hres
    · rw [abort_all_eq_empty w ab hl] at hmem
      simp at hmem

/-- Witness for the amended C3: the `wake_one` discipline on the scenario
queue, and a concrete `abort_all` whose trace unparks context 11 under the
lock. -/
theorem unpark_lock_discipline_witness :
    noUnparkWhileLocked (Waker.wake_one wScen 3 selAll).2.2 false = true ∧
    noUnparkWhileLocked (Waker.abort_all wCex2 abAll).2 false = false :=
  ⟨unpark_lock_discipline.1 wScen 3 selAll,
    unpark_lock_discipline.2 wCex2 abAll 11 (by decide)⟩
